import Mathlib

/-!
Verification of the local-echo line-editor addon (`xterm-addon-local-echo`).

The repository ships two variants of the addon class in
`src/src/LocalEchoAddon.ts` (a fork variant first, an upstream-style variant
second) over a shared utility module `src/src/Utils.ts`.  Strings are embedded
as `List Char` (one entry per UTF-16 unit of the JavaScript string; all inputs
considered here are ASCII).  Each definition below is a direct translation of
the corresponding source function; deviations (for code of the repository that
is not under `src/`) are flagged in the doc comments.
-/

namespace LocalEcho

/-- Whitespace recognised by JavaScript `String.prototype.trim` (restricted to
the ASCII whitespace characters, which are the only ones arising here). -/
def isSpaceChar (c : Char) : Bool :=
  c = ' ' || c = '\t' || c = '\n' || c = '\r' || c = '\x0b' || c = '\x0c'

/-- JavaScript `s.trim()`: drop leading and trailing whitespace. -/
def trimList (s : List Char) : List Char :=
  ((s.dropWhile isSpaceChar).reverse.dropWhile isSpaceChar).reverse

/-- Result record of `offsetToColRow` (`{ row, col }` in `src/src/Utils.ts`). -/
structure ColRow where
  row : Nat
  col : Nat
deriving DecidableEq, Repr

/-- JavaScript `input.charAt(i)`: past the end of the string it yields the
empty string, whose only observable property in `offsetToColRow` is that it is
not `"\n"`; it is embedded as the space character, which is likewise not a
newline. -/
def charAtOrSpace (input : List Char) (i : Nat) : Char :=
  input.getD i ' '

/-- One iteration of the scanning loop of `offsetToColRow`
(`src/src/Utils.ts` lines 58-70): a newline resets the column and bumps the
row; otherwise the column advances and wraps when it reaches `maxCols`. -/
def stepColRow (maxCols : Nat) (st : ColRow) (c : Char) : ColRow :=
  if c = '\n' then ⟨st.row + 1, 0⟩
  else if st.col + 1 = maxCols then ⟨st.row + 1, 0⟩
  else ⟨st.row, st.col + 1⟩

/-- `offsetToColRow(input, offset, maxCols)` from `src/src/Utils.ts` lines
54-73: brute-force emulation of terminal navigation over the first `offset`
characters. -/
def offsetToColRow (input : List Char) (offset maxCols : Nat) : ColRow :=
  match offset with
  | 0 => ⟨0, 0⟩
  | n + 1 => stepColRow maxCols (offsetToColRow input n maxCols) (charAtOrSpace input n)

/-- Modelled from the spec: the repository strips non-printing escape
sequences with `ansiRegex()` imported from `./ansi-regex`, a file that is not
under `src/`.  Following the spec ("strip removes non-printing ANSI escape
sequences"), this scanner removes CSI sequences `ESC [ parameter-bytes
final-byte`; on escape-free strings (all concrete inputs used below) it is the
identity.  The state flag is true while inside a CSI sequence. -/
def stripAnsiGo : Bool → List Char → List Char
  | _, [] => []
  | false, '\x1b' :: '[' :: rest => stripAnsiGo true rest
  | false, c :: rest => c :: stripAnsiGo false rest
  | true, c :: rest =>
    if 0x20 ≤ c.toNat ∧ c.toNat ≤ 0x3f then stripAnsiGo true rest
    else stripAnsiGo false rest

/-- `input.replace(ansiRegex(), "")` (see `stripAnsiGo`). -/
def stripAnsi (input : List Char) : List Char :=
  stripAnsiGo false input

/-- `countLines(input, maxCols)` from `src/src/Utils.ts` lines 78-83. -/
def countLines (input : List Char) (maxCols : Nat) : Nat :=
  (offsetToColRow input (stripAnsi input).length maxCols).row + 1

/-- Trailing segment produced by
`input.split(/(\|\||\||&&)/g).pop()` (`src/src/Utils.ts` lines 110-115): scan
left to right, matching `||`, then `|`, then `&&` at each position (the
regex's alternation order); the accumulator holds the reversed current
segment, and the last segment is returned. -/
def splitLastSegGo (acc : List Char) : List Char → List Char
  | [] => acc.reverse
  | '|' :: '|' :: rest => splitLastSegGo [] rest
  | '|' :: rest => splitLastSegGo [] rest
  | '&' :: '&' :: rest => splitLastSegGo [] rest
  | c :: rest => splitLastSegGo (c :: acc) rest

/-- The last element of `input.split(/(\|\||\||&&)/g)`. -/
def splitLastSeg (input : List Char) : List Char :=
  splitLastSegGo [] input

/-- `isIncompleteInput(input)` from `src/src/Utils.ts` lines 95-124.
JavaScript `(input.match(/'/g) || []).length` is the number of occurrences of
the quote character, and `input.endsWith(s)` is the suffix test. -/
def isIncompleteInput (input : List Char) : Bool :=
  if trimList input = [] then false
  else if ¬ (input.count '\'' % 2 = 0) then true
  else if ¬ (input.count '"' % 2 = 0) then true
  else if trimList (splitLastSeg input) = [] then true
  else if ['\\'].isSuffixOf input ∧ ¬ (['\\', '\\'].isSuffixOf input) then true
  else false

/-- Number of consecutive backslash characters at the end of the input (used
to state claim C7; not itself part of the source). -/
def trailingBackslashCount (input : List Char) : Nat :=
  (input.reverse.takeWhile (fun c => c = '\\')).length

/-- Outcome of one pass of the `for` loop in `getSharedFragment`
(`src/src/Utils.ts` lines 194-201): `return null`, `return oldFragment`, or
fall through to the recursive call. -/
inductive ScanOut where
  | retNull : ScanOut
  | retOld : ScanOut
  | next : ScanOut
deriving DecidableEq, Repr

/-- The `for` loop of `getSharedFragment`: `old` is `oldFragment`, `frag` the
grown fragment; candidates are checked in order with early return. -/
def scanCands (old frag : List Char) : List (List Char) → ScanOut
  | [] => ScanOut.next
  | c :: rest =>
    if old.isPrefixOf c = false then ScanOut.retNull
    else if frag.isPrefixOf c = false then ScanOut.retOld
    else scanCands old frag rest

/-- `getSharedFragment(fragment, candidates)` from `src/src/Utils.ts` lines
181-204.  `candidates[0]` on an empty list is JavaScript `undefined`; callers
only invoke it with a non-empty list, and it is embedded as `headD []`.
`candidates[0].slice(len, len+1)` is the single character at index `len` when
`len < candidates[0].length`, which holds on the recursive path. -/
def getSharedFragment (fragment : List Char) (candidates : List (List Char)) :
    Option (List Char) :=
  if (candidates.headD []).length ≤ fragment.length then some fragment
  else
    let fragment2 := fragment ++ [(candidates.headD []).getD fragment.length ' ']
    match scanCands fragment fragment2 candidates with
    | ScanOut.retNull => none
    | ScanOut.retOld => some fragment
    | ScanOut.next => getSharedFragment fragment2 candidates
termination_by (candidates.headD []).length - fragment.length
decreasing_by
  simp only [List.length_append, List.length_cons, List.length_nil]
  omega

/-- The `History` class of `src/src/Utils.ts` lines 205-262 (`index` is the
browse index, `itemsMax` the capacity). -/
structure History where
  index : Nat
  itemsMax : Nat
  items : List (List Char)
deriving DecidableEq, Repr

/-- The `History` constructor: `index = 0`, `items = []`. -/
def History.new (size : Nat) : History :=
  ⟨0, size, []⟩

/-- `History.getPrev()`: decrement the index, floored at 0, and return the
item there (`undefined`, i.e. `none`, when out of range). -/
def History.getPrev (h : History) : History × Option (List Char) :=
  let i := h.index - 1
  ({ h with index := i }, h.items.get? i)

/-- `History.getNext()`: increment the index, capped at `items.length`, and
return the item there (`undefined`, i.e. `none`, at the cap). -/
def History.getNext (h : History) : History × Option (List Char) :=
  let i := min h.items.length (h.index + 1)
  ({ h with index := i }, h.items.get? i)

/-- `History.rewind()`: set the index to `items.length`. -/
def History.rewind (h : History) : History :=
  { h with index := h.items.length }

/-- `History.push(input)`: no-op when the input trims to empty; otherwise
append unless equal to the last stored item (`items[items.length - 1]`,
`undefined` on an empty ring), evicting the oldest entry (`shift()`) past
capacity, and rewind. -/
def History.push (h : History) (input : List Char) : History :=
  if trimList input = [] then h
  else
    let items :=
      if h.items.getLast? ≠ some input then
        let appended := h.items ++ [input]
        if h.itemsMax < appended.length then appended.drop 1 else appended
      else h.items
    { h with items := items, index := items.length }

/-- `data.replace(/[\r\n]+/g, repl)`: every maximal run of carriage returns
and line feeds becomes `repl`.  The flag records whether the scanner is inside
such a run.  Used by `print` (with `repl = "\n"`) and by the paste
normalisation in `handleTermData` (with `repl = "\r"`). -/
def replaceNewlineRunsGo (repl : List Char) : Bool → List Char → List Char
  | _, [] => []
  | inRun, c :: rest =>
    if c = '\r' ∨ c = '\n' then
      (if inRun then [] else repl) ++ replaceNewlineRunsGo repl true rest
    else c :: replaceNewlineRunsGo repl false rest

/-- `data.replace(/[\r\n]+/g, repl)` (see `replaceNewlineRunsGo`). -/
def replaceNewlineRuns (repl : List Char) (data : List Char) : List Char :=
  replaceNewlineRunsGo repl false data

/-- `print.replace(/\n/g, "\r\n")`: expand every line feed to CRLF. -/
def lfToCrlf : List Char → List Char
  | [] => []
  | '\n' :: rest => '\r' :: '\n' :: lfToCrlf rest
  | c :: rest => c :: lfToCrlf rest

/-- The string written to the terminal by `print(output)` (identical in both
addon variants, `src/src/LocalEchoAddon.ts` lines 160-164 and 950-957):
collapse newline runs to `"\n"`, then expand `"\n"` to `"\r\n"`. -/
def print (output : List Char) : List Char :=
  lfToCrlf (replaceNewlineRuns ['\n'] output)

/-- The string written by `println(output)`: `print(output + "\n")`. -/
def println (output : List Char) : List Char :=
  print (output ++ ['\n'])

/-- Spec-side restatement for claim C10: replace every maximal run of one or
more consecutive CR/LF characters by exactly one CRLF, in a single pass. -/
def crlfRunsSpecGo : Bool → List Char → List Char
  | _, [] => []
  | inRun, c :: rest =>
    if c = '\r' ∨ c = '\n' then
      (if inRun then [] else ['\r', '\n']) ++ crlfRunsSpecGo true rest
    else c :: crlfRunsSpecGo false rest

/-- Spec-side restatement for claim C10 (see `crlfRunsSpecGo`). -/
def crlfRunsSpec (output : List Char) : List Char :=
  crlfRunsSpecGo false output

/-- Word-character test of the regex `/\w+/g` in `getOffsetWord`
(`src/src/Utils.ts` lines 28-46). -/
def isWordChar (c : Char) : Bool :=
  ('a' ≤ c ∧ c ≤ 'z') ∨ ('A' ≤ c ∧ c ≤ 'Z') ∨ ('0' ≤ c ∧ c ≤ '9') ∨ c = '_'

/-- Indices at which a maximal `/\w+/` run starts (match indices collected by
the `while` loop of `getOffsetWord`); `i` is the index of the head of the
remaining list. -/
def wordStartsGo (i : Nat) (prevIsWord : Bool) : List Char → List Nat
  | [] => []
  | c :: rest =>
    if isWordChar c ∧ ¬ prevIsWord then i :: wordStartsGo (i + 1) (isWordChar c) rest
    else wordStartsGo (i + 1) (isWordChar c) rest

/-- All `/\w+/g` match indices of the input. -/
def wordStarts (input : List Char) : List Nat :=
  wordStartsGo 0 false input

/-- `getOffsetWord(input, offset, rtl)` from `src/src/Utils.ts` lines 28-46:
nearest word-start strictly left (`|| 0`) or strictly right
(`|| input.length`) of the offset. -/
def getOffsetWord (input : List Char) (offset : Nat) (rtl : Bool) : Nat :=
  let words := wordStarts input
  if rtl then ((words.reverse.find? (fun v => v < offset)).getD 0)
  else ((words.find? (fun v => offset < v)).getD input.length)

/-- Prompt pair of an active read request (`ActivePrompt` in
`src/src/LocalEchoAddon.ts`; the `resolve`/`reject` continuations are
modelled by the `resolvedLines`/`resolvedChars` logs of the engine state). -/
structure Prompt where
  ps1 : List Char
  ps2 : List Char
deriving DecidableEq, Repr

/-- One interaction with the terminal surface.  Direct `terminal.write` calls
of concrete strings are recorded verbatim as `str`; the redraw cycle of
`setInput`/`writeInput` (line clearing, re-printing the prompt-decorated
input, and relative cursor movement) is abstracted into `clear`, `render`
(carrying the exact string passed to `print` and the final cursor offset) and
`move` events, since no claim constrains the movement escape sequences. -/
inductive TermWrite where
  | str : List Char → TermWrite
  | clear : TermWrite
  | render : List Char → Nat → TermWrite
  | move : Nat → TermWrite
deriving DecidableEq, Repr

namespace Upstream

/-- State of the upstream-variant `LocalEchoAddon` class
(`src/src/LocalEchoAddon.ts` lines 831-1504): the fields `active`, `input`,
`cursor`, `activePrompt`, `activeCharPrompt`, `history`, plus the log of
terminal writes and of promise resolutions.  The engine is modelled with no
registered autocomplete handlers (`autocompleteHandlers = []`), so the Tab
branch of `handleData` reduces to inserting four spaces. -/
structure EngineState where
  active : Bool
  input : List Char
  cursor : Nat
  activePrompt : Option Prompt
  activeCharPrompt : Option Prompt
  history : History
  output : List TermWrite
  resolvedLines : List (List Char)
  resolvedChars : List (List Char)
deriving DecidableEq, Repr

/-- `applyPrompts(input)` (lines 1076-1082): prefix `ps1` and inject `ps2`
after every embedded newline.  `(this.activePrompt || {}).ps1 || ""` yields
the empty string when no prompt is active. -/
def injectPs2 (ps2 : List Char) : List Char → List Char
  | [] => []
  | '\n' :: rest => '\n' :: (ps2 ++ injectPs2 ps2 rest)
  | c :: rest => c :: injectPs2 ps2 rest

/-- `applyPrompts(input)` (see `injectPs2`). -/
def applyPrompts (st : EngineState) (input : List Char) : List Char :=
  ((st.activePrompt.map Prompt.ps1).getD []) ++
    injectPs2 ((st.activePrompt.map Prompt.ps2).getD []) input

/-- `clearInput()` (lines 1099-1125): pure terminal output, recorded as one
`clear` event. -/
def clearInput (st : EngineState) : EngineState :=
  { st with output := st.output ++ [TermWrite.clear] }

/-- `setInput(newInput, clearInput)` (lines 1133-1166): optionally clear,
print the prompt-decorated input, clamp the cursor to the new length, move
the terminal cursor, and replace `input`. -/
def setInput (st : EngineState) (newInput : List Char) (clear : Bool) : EngineState :=
  let st1 := if clear then clearInput st else st
  let cursor := min st1.cursor newInput.length
  { st1 with
      input := newInput
      cursor := cursor
      output := st1.output ++ [TermWrite.render (print (applyPrompts st1 newInput)) cursor] }

/-- `setCursor(newCursor)` (lines 1201-1240): clamp to `[0, input.length]`,
emit relative movement (abstracted as a `move` event), set the offset. -/
def setCursor (st : EngineState) (newCursor : Nat) : EngineState :=
  let nc := min newCursor st.input.length
  { st with cursor := nc, output := st.output ++ [TermWrite.move nc] }

/-- `handleCursorInsert(data)` (lines 1276-1281): splice `data` in at the
cursor, advance the cursor by its length, re-render. -/
def handleCursorInsert (st : EngineState) (data : List Char) : EngineState :=
  let newInput := st.input.take st.cursor ++ data ++ st.input.drop st.cursor
  setInput { st with cursor := st.cursor + data.length } newInput true

/-- `handleCursorErase(backspace)` (lines 1258-1271). -/
def handleCursorErase (st : EngineState) (backspace : Bool) : EngineState :=
  if backspace then
    if st.cursor = 0 then st
    else
      let newInput := st.input.take (st.cursor - 1) ++ st.input.drop st.cursor
      let st1 := clearInput st
      setInput { st1 with cursor := st1.cursor - 1 } newInput false
  else
    let newInput := st.input.take st.cursor ++ st.input.drop (st.cursor + 1)
    setInput st newInput true

/-- `handleReadComplete()` (lines 1286-1296): push the input to history,
resolve the pending line-read (logged in `resolvedLines`), write a line
break, deactivate. -/
def handleReadComplete (st : EngineState) : EngineState :=
  let st1 := { st with history := st.history.push st.input }
  let st2 :=
    match st1.activePrompt with
    | some _ =>
      { st1 with
          resolvedLines := st1.resolvedLines ++ [st1.input]
          activePrompt := none }
    | none => st1
  { st2 with output := st2.output ++ [TermWrite.str ['\r', '\n']], active := false }

/-- `handleData(data)` (lines 1338-1503): classify one input unit as escape
sequence, control character, or printable text, and dispatch. -/
def handleData (st : EngineState) (data : List Char) : EngineState :=
  if ¬ st.active then st
  else
    match data with
    | [] => handleCursorInsert st []
    | c :: rest =>
      if c = '\x1b' then
        match rest with
        | ['[', 'A'] =>
          match st.history.getPrev with
          | (h, some s) =>
            if s = [] then { st with history := h }
            else setCursor (setInput { st with history := h } s true) s.length
          | (h, none) => { st with history := h }
        | ['[', 'B'] =>
          match st.history.getNext with
          | (h, v) =>
            let s := v.getD []
            setCursor (setInput { st with history := h } s true) s.length
        | ['[', '3', '~'] => handleCursorErase st false
        | ['[', 'F'] => setCursor st st.input.length
        | ['[', 'H'] => setCursor st 0
        | ['b'] => setCursor st (getOffsetWord st.input st.cursor true)
        | ['f'] => setCursor st (getOffsetWord st.input st.cursor false)
        | ['\x7f'] =>
          let before := getOffsetWord st.input st.cursor true
          let after := getOffsetWord st.input before false
          setCursor
            (setInput st (st.input.take before ++ st.input.drop after) true) before
        | _ => st
      else if c.toNat < 32 ∨ c.toNat = 0x7f then
        match data with
        | ['\r'] =>
          if isIncompleteInput st.input then handleCursorInsert st ['\n']
          else handleReadComplete st
        | ['\x7f'] => handleCursorErase st true
        | ['\t'] => handleCursorInsert st [' ', ' ', ' ', ' ']
        | ['\x03'] =>
          let st1 := setCursor st st.input.length
          { st1 with
              output := st1.output ++
                [TermWrite.str (['^', 'C', '\r', '\n'] ++
                  ((st1.activePrompt.map Prompt.ps1).getD []))]
              input := []
              cursor := 0
              history := st1.history.rewind }
        | _ => st
      else handleCursorInsert st data

/-- `handleTermData(data)` (lines 1315-1333): drop input when inactive;
satisfy a pending char-read in priority; expand paste-like input through
`handleData` character by character; otherwise dispatch directly. -/
def handleTermData (st : EngineState) (data : List Char) : EngineState :=
  if ¬ st.active then st
  else
    match st.activeCharPrompt with
    | some _ =>
      { st with
          resolvedChars := st.resolvedChars ++ [data]
          activeCharPrompt := none
          output := st.output ++ [TermWrite.str ['\r', '\n']] }
    | none =>
      if 3 < data.length ∧ data.head? ≠ some '\x1b' then
        (replaceNewlineRuns ['\r'] data).foldl (fun s c => handleData s [c]) st
      else handleData st data

end Upstream

namespace Fork

/-- State of the fork-variant `LocalEchoAddon` class
(`src/src/LocalEchoAddon.ts` lines 32-791); like `Upstream.EngineState` plus
the `incompleteEnabled` option, and modelled with no registered tab-complete
handlers (`tabCompleteHandlers = []`). -/
structure EngineState where
  active : Bool
  incompleteEnabled : Bool
  input : List Char
  cursor : Nat
  activePrompt : Option Prompt
  activeCharPrompt : Option Prompt
  history : History
  output : List TermWrite
  resolvedLines : List (List Char)
  resolvedChars : List (List Char)
deriving DecidableEq, Repr

/-- `applyPrompt(input)` (lines 258-265): as in the upstream variant. -/
def applyPrompt (st : EngineState) (input : List Char) : List Char :=
  ((st.activePrompt.map Prompt.ps1).getD []) ++
    Upstream.injectPs2 ((st.activePrompt.map Prompt.ps2).getD []) input

/-- `clearInput()` (lines 282-302): pure terminal output. -/
def clearInput (st : EngineState) : EngineState :=
  { st with output := st.output ++ [TermWrite.clear] }

/-- `writeInput(input, clearInput)` (lines 312-353): optionally clear, clamp
the cursor to the new length, print the prompt-decorated input, move the
terminal cursor, and replace `input`. -/
def writeInput (st : EngineState) (input : List Char) (clear : Bool) : EngineState :=
  let st1 := if clear then clearInput st else st
  let cursor := min st1.cursor input.length
  { st1 with
      input := input
      cursor := cursor
      output := st1.output ++ [TermWrite.render (print (applyPrompt st1 input)) cursor] }

/-- `setCursor(newCursor)` (lines 444-483): as in the upstream variant. -/
def setCursor (st : EngineState) (newCursor : Nat) : EngineState :=
  let nc := min newCursor st.input.length
  { st with cursor := nc, output := st.output ++ [TermWrite.move nc] }

/-- `handleCursorInsert(input)` (lines 492-498).  Note the order of
operations in the source: the cursor is advanced by `input.length` first, and
the splice position is the already-advanced cursor. -/
def handleCursorInsert (st : EngineState) (input : List Char) : EngineState :=
  let cursor := st.cursor + input.length
  let insert := st.input.take cursor ++ input ++ st.input.drop cursor
  writeInput { st with cursor := cursor } insert true

/-- `handleCursorErase(bksp)` (lines 526-536).  Note that for a backspace at
cursor 0 the source still erases the character at position 0. -/
def handleCursorErase (st : EngineState) (bksp : Bool) : EngineState :=
  let cursor := if bksp ∧ 0 < st.cursor then st.cursor - 1 else st.cursor
  let erase := st.input.take cursor ++ st.input.drop (cursor + 1)
  writeInput { st with cursor := cursor } erase true

/-- `handleReadComplete()` (lines 543-553): as in the upstream variant. -/
def handleReadComplete (st : EngineState) : EngineState :=
  let st1 := { st with history := st.history.push st.input }
  let st2 :=
    match st1.activePrompt with
    | some _ =>
      { st1 with
          resolvedLines := st1.resolvedLines ++ [st1.input]
          activePrompt := none }
    | none => st1
  { st2 with output := st2.output ++ [TermWrite.str ['\r', '\n']], active := false }

/-- Modelled from the spec: the fork imports `hasIncompleteChars` from its
`./Utils`, whose source is not under `src/` (only its declaration file and
tests are).  Its test suite is character-for-character the test suite of
`isIncompleteInput`, and the spec describes a single incomplete-input
detector, so it is modelled as `isIncompleteInput`. -/
def hasIncompleteChars (input : List Char) : Bool :=
  isIncompleteInput input

/-- Modelled from the spec: the fork imports `getWord` from its `./Utils`,
whose source is not under `src/`; its declaration and tests match
`getOffsetWord` (word-start offsets), so it is modelled as `getOffsetWord`. -/
def getWord (input : List Char) (offset : Nat) (rtl : Bool) : Nat :=
  getOffsetWord input offset rtl

/-- `handleData(data)` of the fork variant (lines 598-790).  The arrow-key
cases `[D`, `[C`, `[F`, `[H`, `b` and `f` are commented out in the source;
Enter only finalizes the read when `incompleteEnabled` is false. -/
def handleData (st : EngineState) (data : List Char) : EngineState :=
  if ¬ st.active then st
  else
    match data with
    | [] => handleCursorInsert st []
    | c :: rest =>
      if c = '\x1b' then
        match rest with
        | ['[', 'A'] =>
          match st.history.getPrev with
          | (h, some s) =>
            if s = [] then { st with history := h }
            else setCursor (writeInput { st with history := h } s true) s.length
          | (h, none) => { st with history := h }
        | ['[', 'B'] =>
          match st.history.getNext with
          | (h, v) =>
            let s := v.getD []
            setCursor (writeInput { st with history := h } s true) s.length
        | ['[', '3', '~'] => handleCursorErase st false
        | ['\x7f'] =>
          let b := getWord st.input st.cursor true
          let a := getWord st.input b false
          setCursor (writeInput st (st.input.take b ++ st.input.drop a) true) b
        | _ => st
      else if c.toNat < 32 ∨ c.toNat = 0x7f then
        match data with
        | ['\r'] =>
          if st.incompleteEnabled then
            if hasIncompleteChars st.input then handleCursorInsert st ['\n'] else st
          else handleReadComplete st
        | ['\x7f'] => handleCursorErase st true
        | ['\t'] => handleCursorInsert st [' ', ' ', ' ', ' ']
        | ['\x03'] =>
          let st1 := setCursor st st.input.length
          { st1 with
              output := st1.output ++
                [TermWrite.str (['^', 'C', '\r', '\n'] ++
                  ((st1.activePrompt.map Prompt.ps1).getD []))]
              cursor := 0
              input := []
              history := st1.history.rewind }
        | _ => st
      else handleCursorInsert st data

/-- `handleTermData(data)` of the fork variant (lines 573-591): identical
logic to the upstream variant. -/
def handleTermData (st : EngineState) (data : List Char) : EngineState :=
  if ¬ st.active then st
  else
    match st.activeCharPrompt with
    | some _ =>
      { st with
          resolvedChars := st.resolvedChars ++ [data]
          activeCharPrompt := none
          output := st.output ++ [TermWrite.str ['\r', '\n']] }
    | none =>
      if 3 < data.length ∧ data.head? ≠ some '\x1b' then
        (replaceNewlineRuns ['\r'] data).foldl (fun s c => handleData s [c]) st
      else handleData st data

end Fork

/-- Concrete fork-variant state used for claim C1: an active line-read with
the default `incompleteEnabled = true`, complete buffer `"cmd"`, cursor at
the end. -/
def forkEnterState : Fork.EngineState :=
  { active := true
    incompleteEnabled := true
    input := ['c', 'm', 'd']
    cursor := 3
    activePrompt := some ⟨['$', ' '], ['>', ' ']⟩
    activeCharPrompt := none
    history := History.new 10
    output := []
    resolvedLines := []
    resolvedChars := [] }

/-- Concrete fork-variant state used for claim C6: buffer `"ab"`, cursor 1. -/
def forkInsertState : Fork.EngineState :=
  { active := true
    incompleteEnabled := true
    input := ['a', 'b']
    cursor := 1
    activePrompt := some ⟨['$', ' '], ['>', ' ']⟩
    activeCharPrompt := none
    history := History.new 10
    output := []
    resolvedLines := []
    resolvedChars := [] }

/-- Concrete upstream-variant state used for the claim C6 witness: buffer
`"ab"`, cursor 1, during an active read. -/
def upInsertState : Upstream.EngineState :=
  { active := true
    input := ['a', 'b']
    cursor := 1
    activePrompt := some ⟨['$', ' '], ['>', ' ']⟩
    activeCharPrompt := none
    history := History.new 10
    output := []
    resolvedLines := []
    resolvedChars := [] }

/-- Concrete upstream-variant state used for the claim C2 witness: a pending
char-read during an active line-read. -/
def readingCharState : Upstream.EngineState :=
  { active := true
    input := ['l', 's']
    cursor := 2
    activePrompt := some ⟨['$', ' '], ['>', ' ']⟩
    activeCharPrompt := some ⟨['?'], []⟩
    history := History.new 10
    output := []
    resolvedLines := []
    resolvedChars := [] }

/-- Concrete upstream-variant state used for claim C2: a pending char-read
while the engine is idle (no line-read, `active = false`). -/
def idleCharReadState : Upstream.EngineState :=
  { active := false
    input := []
    cursor := 0
    activePrompt := none
    activeCharPrompt := some ⟨['?', ' '], []⟩
    history := History.new 10
    output := []
    resolvedLines := []
    resolvedChars := [] }

/-! ## Helper lemmas -/

theorem charAtOrSpace_ne_newline {s : List Char} (h : '\n' ∉ s) (i : Nat) :
    charAtOrSpace s i ≠ '\n' := by
  intro hEq
  unfold charAtOrSpace at hEq
  rcases hg : s.get? i with _ | a
  · rw [List.getD_eq_getD_get?, hg] at hEq
    exact absurd hEq (by decide)
  · have ha : a ∈ s := List.get?_mem hg
    rw [List.getD_eq_getD_get?, hg] at hEq
    simp only [Option.getD_some] at hEq
    exact h (hEq ▸ ha)

theorem offsetToColRow_of_no_newline (s : List Char) (c : Nat) (hc : 1 ≤ c)
    (n : Nat) (h : ∀ i, i < n → charAtOrSpace s i ≠ '\n') :
    offsetToColRow s n c = ⟨n / c, n % c⟩ := by
  induction n with
  | zero => simp [offsetToColRow]
  | succ n ih =>
    have hrec : offsetToColRow s (n + 1) c =
        stepColRow c (offsetToColRow s n c) (charAtOrSpace s n) := rfl
    rw [hrec, ih (fun i hi => h i (Nat.lt_succ_of_lt hi))]
    have hch : charAtOrSpace s n ≠ '\n' := h n (Nat.lt_succ_self n)
    rw [stepColRow]
    simp only [hch, if_false]
    by_cases hcol : n % c + 1 = c
    · have h1 : n + 1 = c * (n / c + 1) := by
        rw [Nat.mul_succ]
        have := Nat.div_add_mod n c
        omega
      simp only [hcol, if_true, if_pos rfl]
      rw [h1, Nat.mul_div_cancel_left _ (by omega : 0 < c), Nat.mul_mod_right]
    · have hmod : n % c < c := Nat.mod_lt n (by omega)
      have hlt : n % c + 1 < c := by omega
      have h1 : n + 1 = c * (n / c) + (n % c + 1) := by
        have := Nat.div_add_mod n c
        omega
      simp only [hcol, if_false]
      rw [h1, Nat.mul_add_div (by omega : 0 < c), Nat.mul_add_mod,
        Nat.div_eq_of_lt hlt, Nat.mod_eq_of_lt hlt]
      simp

theorem stepColRow_lex (c : Nat) (p : ColRow) (ch : Char) :
    p.row < (stepColRow c p ch).row ∨
      (p.row = (stepColRow c p ch).row ∧ p.col < (stepColRow c p ch).col) := by
  unfold stepColRow
  split
  · simp
  · split <;> simp

theorem offsetToColRow_lex (input : List Char) (c : Nat) :
    ∀ o1 o2, o1 < o2 →
      (offsetToColRow input o1 c).row < (offsetToColRow input o2 c).row ∨
        ((offsetToColRow input o1 c).row = (offsetToColRow input o2 c).row ∧
          (offsetToColRow input o1 c).col < (offsetToColRow input o2 c).col) := by
  intro o1 o2 h
  induction o2 with
  | zero => omega
  | succ n ih =>
    have hrec : offsetToColRow input (n + 1) c =
        stepColRow c (offsetToColRow input n c) (charAtOrSpace input n) := rfl
    have hstep := stepColRow_lex c (offsetToColRow input n c) (charAtOrSpace input n)
    rw [hrec]
    rcases Nat.lt_succ_iff_lt_or_eq.mp h with h1 | h1
    · rcases ih h1 with h2 | ⟨h2, h3⟩ <;> rcases hstep with h4 | ⟨h4, h5⟩ <;> omega
    · subst h1
      exact hstep

/-! ## Claim theorems -/

/-- Claim C3 (amended): `countLines(s, c) ≥ 1` for every string and width
`c ≥ 1`; and for non-empty `s` without embedded newlines it equals
`floor(len(strip(s)) / c) + 1` (the claimed `1 + floor((len(strip(s)) - 1) / c)`
fails when the stripped length is an exact multiple of `c`). -/
theorem claim_C3 :
    (∀ (s : List Char) (c : Nat), 1 ≤ c → 1 ≤ countLines s c) ∧
    (∀ (s : List Char) (c : Nat), 1 ≤ c → s ≠ [] → '\n' ∉ s →
      countLines s c = (stripAnsi s).length / c + 1) := by
  constructor
  · intro s c _
    unfold countLines
    omega
  · intro s c hc _ hnl
    unfold countLines
    rw [offsetToColRow_of_no_newline s c hc _
      (fun i _ => charAtOrSpace_ne_newline hnl i)]

/-- Claim C3 counterexample: at `s = "abcdef"`, `c = 6` the code gives 2
display lines while the claimed formula `1 + floor((len - 1) / c)` gives 1. -/
theorem claim_C3_counterexample :
    countLines (String.toList "abcdef") 6 = 2 ∧
      1 + ((stripAnsi (String.toList "abcdef")).length - 1) / 6 = 1 ∧
      countLines (String.toList "abcdef") 6 ≠
        1 + ((stripAnsi (String.toList "abcdef")).length - 1) / 6 := by
  decide

/-- Claim C3 witness: the amended formula applied at `s = "abcdef"`, `c = 6`. -/
theorem claim_C3_witness :
    1 ≤ countLines (String.toList "abcdef") 6 ∧
      countLines (String.toList "abcdef") 6 =
        (stripAnsi (String.toList "abcdef")).length / 6 + 1 :=
  ⟨claim_C3.1 (String.toList "abcdef") 6 (by decide),
    claim_C3.2 (String.toList "abcdef") 6 (by decide) (by decide) (by decide)⟩

/-- Claim C4: `offsetToColRow` advances character by character — a newline
resets the column to 0 and increments the row, a column reaching `maxCols`
wraps, anything else advances the column — and for a single-line input of
length at least `cols`, the position at offset `cols` is row 1, column 0. -/
theorem claim_C4 :
    (∀ (input : List Char) (offset maxCols : Nat),
      (charAtOrSpace input offset = '\n' →
        offsetToColRow input (offset + 1) maxCols =
          ⟨(offsetToColRow input offset maxCols).row + 1, 0⟩) ∧
      (charAtOrSpace input offset ≠ '\n' →
        (offsetToColRow input offset maxCols).col + 1 = maxCols →
        offsetToColRow input (offset + 1) maxCols =
          ⟨(offsetToColRow input offset maxCols).row + 1, 0⟩) ∧
      (charAtOrSpace input offset ≠ '\n' →
        (offsetToColRow input offset maxCols).col + 1 ≠ maxCols →
        offsetToColRow input (offset + 1) maxCols =
          ⟨(offsetToColRow input offset maxCols).row,
            (offsetToColRow input offset maxCols).col + 1⟩)) ∧
    (∀ (input : List Char) (maxCols : Nat), 1 ≤ maxCols →
      maxCols ≤ input.length → '\n' ∉ input →
      offsetToColRow input maxCols maxCols = ⟨1, 0⟩) := by
  constructor
  · intro input offset maxCols
    have hrec : offsetToColRow input (offset + 1) maxCols =
        stepColRow maxCols (offsetToColRow input offset maxCols)
          (charAtOrSpace input offset) := rfl
    refine ⟨fun h => ?_, fun h1 h2 => ?_, fun h1 h2 => ?_⟩
    · rw [hrec, stepColRow]
      simp [h]
    · rw [hrec, stepColRow]
      simp [h1, h2]
    · rw [hrec, stepColRow]
      simp [h1, h2]
  · intro input maxCols hc _ hnl
    rw [offsetToColRow_of_no_newline input maxCols hc _
      (fun i _ => charAtOrSpace_ne_newline hnl i)]
    rw [Nat.div_self (by omega), Nat.mod_self]

/-- Claim C4 witness: the newline rule at `"ab\ncd"`, offset 2, and the wrap
boundary of the spec example `offsetToRowCol("a"*33, 25, 25) = {row 1, col 0}`. -/
theorem claim_C4_witness :
    offsetToColRow (String.toList "ab\ncd") 3 25 = ⟨1, 0⟩ ∧
      offsetToColRow (List.replicate 33 'a') 25 25 = ⟨1, 0⟩ := by
  constructor
  · have h := (claim_C4.1 (String.toList "ab\ncd") 2 25).1 (by decide)
    rw [h]
    decide
  · exact claim_C4.2 (List.replicate 33 'a') 25 (by decide) (by decide) (by decide)

/-- Claim C5: at a fixed width `c ≥ 1`, distinct offsets within the input
always map to distinct (row, col) positions, so the conversion is invertible
and the cursor offset can be re-derived from its position. -/
theorem claim_C5 (input : List Char) (c : Nat) (o1 o2 : Nat)
    (hc : 1 ≤ c) (h1 : o1 ≤ input.length) (h2 : o2 ≤ input.length)
    (hne : o1 ≠ o2) :
    offsetToColRow input o1 c ≠ offsetToColRow input o2 c := by
  intro heq
  rcases Nat.lt_or_ge o1 o2 with hlt | hge
  · rcases offsetToColRow_lex input c o1 o2 hlt with hrow | ⟨hrow, hcol⟩
    · rw [heq] at hrow
      omega
    · rw [heq] at hcol
      omega
  · have hlt : o2 < o1 := by omega
    rcases offsetToColRow_lex input c o2 o1 hlt with hrow | ⟨hrow, hcol⟩
    · rw [heq] at hrow
      omega
    · rw [heq] at hcol
      omega

/-- Claim C5 witness: offsets 1 and 3 of `"ab\ncd"` at width 25 land on
distinct positions. -/
theorem claim_C5_witness :
    offsetToColRow (String.toList "ab\ncd") 1 25 ≠
      offsetToColRow (String.toList "ab\ncd") 3 25 :=
  claim_C5 (String.toList "ab\ncd") 25 1 3 (by decide) (by decide) (by decide)
    (by decide)

/-- Claim C9: a capacity-3 history receiving `"1"..."5"` keeps `["3","4","5"]`;
a push equal to the most recent entry stores nothing; a push that trims to
empty stores nothing; and every storing push resets the browse index to the
entry count. -/
theorem claim_C9 :
    ((((((History.new 3).push ['1']).push ['2']).push ['3']).push ['4']).push
        ['5']).items = [['3'], ['4'], ['5']] ∧
    (∀ (h : History) (s : List Char), h.items.getLast? = some s →
      (h.push s).items = h.items) ∧
    (∀ (h : History) (s : List Char), trimList s = [] → h.push s = h) ∧
    (∀ (h : History) (s : List Char), trimList s ≠ [] →
      h.items.getLast? ≠ some s →
      (h.push s).index = (h.push s).items.length) := by
  refine ⟨by decide, ?_, ?_, ?_⟩
  · intro h s hlast
    by_cases htrim : trimList s = []
    · simp [History.push, htrim]
    · simp [History.push, htrim, hlast]
  · intro h s htrim
    simp [History.push, htrim]
  · intro h s htrim hlast
    simp [History.push, htrim]

/-- Claim C9 witness: the general clauses applied at concrete histories. -/
theorem claim_C9_witness :
    (((History.new 3).push ['a']).push ['a']).items = [['a']] ∧
      (History.new 3).push [' '] = History.new 3 ∧
      (((History.new 3).push ['a']).push ['b']).index =
        (((History.new 3).push ['a']).push ['b']).items.length := by
  refine ⟨?_, ?_, ?_⟩
  · rw [claim_C9.2.1 ((History.new 3).push ['a']) ['a'] (by decide)]
    decide
  · exact claim_C9.2.2.1 (History.new 3) [' '] (by decide)
  · exact claim_C9.2.2.2 ((History.new 3).push ['a']) ['b'] (by decide) (by decide)

/-- Claim C10: `print` rewrites every maximal run of carriage returns and
line feeds to exactly one CRLF; in particular `println("a\n\nb")` emits a
single line break between `a` and `b`. -/
theorem claim_C10 :
    (∀ s : List Char, print s = crlfRunsSpec s) ∧
      println (String.toList "a\n\nb") = String.toList "a\r\nb\r\n" := by
  constructor
  · have main : ∀ (s : List Char) (b : Bool),
        lfToCrlf (replaceNewlineRunsGo ['\n'] b s) = crlfRunsSpecGo b s := by
      intro s
      induction s with
      | nil => intro b; rfl
      | cons c rest ih =>
        intro b
        rw [replaceNewlineRunsGo, crlfRunsSpecGo]
        by_cases hc : c = '\r' ∨ c = '\n'
        · simp only [hc, if_true, if_pos hc]
          cases b
          · simp [lfToCrlf]
            exact ih true
          · simp
            exact ih true
        · simp only [hc, if_false]
          have hn : c ≠ '\n' := fun h => hc (Or.inr h)
          have hcons : ∀ xs, lfToCrlf (c :: xs) = c :: lfToCrlf xs := by
            intro xs
            simp [lfToCrlf, hn]
          rw [hcons, ih]
    intro s
    exact main s false
  · decide

theorem upstream_insert_input (st : Upstream.EngineState) (d : List Char) :
    (Upstream.handleCursorInsert st d).input =
      st.input.take st.cursor ++ d ++ st.input.drop st.cursor := rfl

theorem upstream_insert_cursor (st : Upstream.EngineState) (d : List Char)
    (h : st.cursor ≤ st.input.length) :
    (Upstream.handleCursorInsert st d).cursor = st.cursor + d.length := by
  show min (st.cursor + d.length)
      (st.input.take st.cursor ++ d ++ st.input.drop st.cursor).length =
    st.cursor + d.length
  simp only [List.length_append, List.length_take, List.length_drop]
  omega

theorem upstream_insert_activePrompt (st : Upstream.EngineState) (d : List Char) :
    (Upstream.handleCursorInsert st d).activePrompt = st.activePrompt := rfl

theorem upstream_insert_active (st : Upstream.EngineState) (d : List Char) :
    (Upstream.handleCursorInsert st d).active = st.active := rfl

theorem upstream_insert_resolvedLines (st : Upstream.EngineState) (d : List Char) :
    (Upstream.handleCursorInsert st d).resolvedLines = st.resolvedLines := rfl

theorem upstream_readComplete_spec (st : Upstream.EngineState) (p : Prompt)
    (hp : st.activePrompt = some p) :
    (Upstream.handleReadComplete st).resolvedLines = st.resolvedLines ++ [st.input] ∧
      (Upstream.handleReadComplete st).activePrompt = none ∧
      (Upstream.handleReadComplete st).active = false ∧
      (Upstream.handleReadComplete st).history = st.history.push st.input ∧
      (Upstream.handleReadComplete st).output =
        st.output ++ [TermWrite.str ['\r', '\n']] ∧
      (Upstream.handleReadComplete st).input = st.input := by
  simp [Upstream.handleReadComplete, hp]

theorem upstream_handleData_enter (st : Upstream.EngineState)
    (hact : st.active = true) :
    Upstream.handleData st ['\r'] =
      (if isIncompleteInput st.input then Upstream.handleCursorInsert st ['\n']
       else Upstream.handleReadComplete st) := by
  simp only [Upstream.handleData, hact]
  rw [if_neg (by decide : ¬ ('\r' = '\x1b')),
    if_pos (by decide : '\r'.toNat < 32 ∨ '\r'.toNat = 127)]
  simp

/-- Claim C1: in the reading state with a pending line-read and no pending
char-read, Enter with an incomplete buffer inserts a literal newline at the
cursor and leaves the read pending, and Enter with a complete buffer
finalizes the read (resolves with the buffer, pushes it to history, emits a
line break, deactivates) — this holds for the upstream-variant `handleData`;
the fork-variant `handleData` (with its default `incompleteEnabled = true`)
leaves the state entirely unchanged on Enter over the complete buffer `"cmd"`,
so its pending read is never finalized. -/
theorem claim_C1 :
    (∀ (st : Upstream.EngineState) (p : Prompt),
      st.active = true → st.activePrompt = some p → st.activeCharPrompt = none →
      st.cursor ≤ st.input.length →
      (isIncompleteInput st.input = true →
        ((Upstream.handleData st ['\r']).input =
            st.input.take st.cursor ++ ['\n'] ++ st.input.drop st.cursor ∧
          (Upstream.handleData st ['\r']).cursor = st.cursor + 1 ∧
          (Upstream.handleData st ['\r']).activePrompt = some p ∧
          (Upstream.handleData st ['\r']).active = true ∧
          (Upstream.handleData st ['\r']).resolvedLines = st.resolvedLines)) ∧
      (isIncompleteInput st.input = false →
        ((Upstream.handleData st ['\r']).resolvedLines =
            st.resolvedLines ++ [st.input] ∧
          (Upstream.handleData st ['\r']).activePrompt = none ∧
          (Upstream.handleData st ['\r']).active = false ∧
          (Upstream.handleData st ['\r']).history = st.history.push st.input ∧
          (Upstream.handleData st ['\r']).output =
            st.output ++ [TermWrite.str ['\r', '\n']] ∧
          (Upstream.handleData st ['\r']).input = st.input))) ∧
    Fork.handleData forkEnterState ['\r'] = forkEnterState := by
  constructor
  · intro st p hact hp hcp hcur
    constructor
    · intro hinc
      rw [upstream_handleData_enter st hact, if_pos (by rw [hinc])]
      refine ⟨upstream_insert_input st ['\n'], ?_,
        (upstream_insert_activePrompt st ['\n']).trans hp,
        (upstream_insert_active st ['\n']).trans hact,
        upstream_insert_resolvedLines st ['\n']⟩
      exact upstream_insert_cursor st ['\n'] hcur
    · intro hinc
      rw [upstream_handleData_enter st hact, if_neg (by rw [hinc]; exact fun h => by cases h)]
      exact upstream_readComplete_spec st p hp
  · decide

/-- Claim C1 witness: the upstream-variant clauses applied at two concrete
reading states, one with the incomplete buffer `"cmd &&"` (Enter inserts a
newline and the read stays pending), one with the complete buffer `"ab"`
(Enter resolves the read with the buffer). -/
theorem claim_C1_witness :
    (Upstream.handleData
        { upInsertState with
            input := String.toList "cmd &&"
            cursor := 6 } ['\r']).input = String.toList "cmd &&\n" ∧
      (Upstream.handleData
        { upInsertState with
            input := String.toList "cmd &&"
            cursor := 6 } ['\r']).active = true ∧
      (Upstream.handleData upInsertState ['\r']).resolvedLines = [['a', 'b']] ∧
      (Upstream.handleData upInsertState ['\r']).active = false := by
  have h1 := (claim_C1.1
    { upInsertState with input := String.toList "cmd &&", cursor := 6 }
    ⟨['$', ' '], ['>', ' ']⟩ rfl rfl rfl (by decide)).1 (by decide)
  have h2 := (claim_C1.1 upInsertState ⟨['$', ' '], ['>', ' ']⟩ rfl rfl rfl
    (by decide)).2 (by decide)
  refine ⟨?_, h1.2.2.2.1, ?_, h2.2.2.1⟩
  · rw [h1.1]
    decide
  · rw [h2.1]
    decide

/-- Claim C2 (amended): whenever a char-read is pending and the engine is
active (a line-read in progress), the very next raw input unit resolves the
char-read with the raw unit, a line break is emitted, and nothing else of the
state changes; when the engine is inactive the input is dropped entirely and
the char-read stays pending, so the interception does not happen when no
line-read is active. -/
theorem claim_C2 (st : Upstream.EngineState) (data : List Char) (p : Prompt)
    (hact : st.active = true) (hcp : st.activeCharPrompt = some p) :
    Upstream.handleTermData st data =
      { st with
          resolvedChars := st.resolvedChars ++ [data]
          activeCharPrompt := none
          output := st.output ++ [TermWrite.str ['\r', '\n']] } := by
  simp only [Upstream.handleTermData, hact, hcp]
  norm_num

/-- Claim C2 counterexample: with a pending char-read but no active
line-read, the next raw input unit is dropped — the char-read is not
resolved, no line break is emitted, and it remains pending — refuting
"interception happens regardless of editor state". -/
theorem claim_C2_counterexample :
    Upstream.handleTermData idleCharReadState ['x'] = idleCharReadState ∧
      idleCharReadState.activeCharPrompt ≠ none ∧
      idleCharReadState.resolvedChars = [] ∧
      idleCharReadState.output = [] := by
  refine ⟨rfl, by decide, rfl, rfl⟩

/-- Claim C2 witness: the amended clause applied at a concrete reading state
with a pending char-read. -/
theorem claim_C2_witness :
    Upstream.handleTermData readingCharState ['x'] =
      { readingCharState with
          resolvedChars := [['x']]
          activeCharPrompt := none
          output := [TermWrite.str ['\r', '\n']] } := by
  rw [claim_C2 readingCharState ['x'] ⟨['?'], []⟩ rfl rfl]
  decide

/-- Claim C6: the upstream-variant `handleCursorInsert` splices the printable
data in at the old cursor offset and advances the cursor by its length; the
fork-variant `handleCursorInsert` advances the cursor before slicing, so on
buffer `"ab"` with cursor 1 inserting `"X"` yields `"abX"` instead of the
claimed `"aXb"`. -/
theorem claim_C6 :
    (∀ (st : Upstream.EngineState) (d : List Char), st.cursor ≤ st.input.length →
      (Upstream.handleCursorInsert st d).input =
          st.input.take st.cursor ++ d ++ st.input.drop st.cursor ∧
        (Upstream.handleCursorInsert st d).cursor = st.cursor + d.length) ∧
    ((Fork.handleCursorInsert forkInsertState ['X']).input = ['a', 'b', 'X'] ∧
      (Fork.handleCursorInsert forkInsertState ['X']).input ≠
        forkInsertState.input.take forkInsertState.cursor ++ ['X'] ++
          forkInsertState.input.drop forkInsertState.cursor) := by
  refine ⟨fun st d h => ⟨upstream_insert_input st d, upstream_insert_cursor st d h⟩,
    by decide, by decide⟩

/-- Claim C6 witness: the upstream-variant clause applied at buffer `"ab"`,
cursor 1, data `"X"`. -/
theorem claim_C6_witness :
    (Upstream.handleCursorInsert upInsertState ['X']).input = ['a', 'X', 'b'] ∧
      (Upstream.handleCursorInsert upInsertState ['X']).cursor = 2 := by
  have h := claim_C6.1 upInsertState ['X'] (by decide)
  refine ⟨?_, ?_⟩
  · rw [h.1]
    decide
  · rw [h.2]
    decide

theorem suffix_one_iff (l : List Char) :
    ['\\'].isSuffixOf l = true ↔ 1 ≤ trailingBackslashCount l := by
  rw [List.isSuffixOf_iff_suffix, ← List.reverse_prefix, List.reverse_singleton]
  unfold trailingBackslashCount
  generalize l.reverse = r
  cases r with
  | nil => simp
  | cons c cs =>
    rw [List.cons_prefix_cons]
    by_cases h : c = '\\' <;> simp [List.takeWhile_cons, h, eq_comm]

theorem suffix_two_iff (l : List Char) :
    ['\\', '\\'].isSuffixOf l = true ↔ 2 ≤ trailingBackslashCount l := by
  rw [List.isSuffixOf_iff_suffix, ← List.reverse_prefix,
    show (['\\', '\\'] : List Char).reverse = ['\\', '\\'] from rfl]
  unfold trailingBackslashCount
  generalize l.reverse = r
  match r with
  | [] => simp
  | [c] =>
    rw [List.cons_prefix_cons]
    by_cases h : c = '\\' <;> simp [List.takeWhile_cons, h, eq_comm]
  | c1 :: c2 :: cs =>
    rw [List.cons_prefix_cons, List.cons_prefix_cons]
    by_cases h1 : c1 = '\\' <;> by_cases h2 : c2 = '\\' <;>
      simp [List.takeWhile_cons, h1, h2, eq_comm] <;> omega

/-- Claim C7 (amended): for non-blank input with balanced quotes and no
dangling operator, `isIncompleteInput` returns true exactly when the text
ends with exactly ONE trailing backslash (the `endsWith("\\") &&
!endsWith("\\\\")` test), not when the trailing backslash count is odd. -/
theorem claim_C7 (input : List Char)
    (h1 : trimList input ≠ [])
    (h2 : input.count '\'' % 2 = 0)
    (h3 : input.count '"' % 2 = 0)
    (h4 : trimList (splitLastSeg input) ≠ []) :
    (isIncompleteInput input = true ↔ trailingBackslashCount input = 1) := by
  have s1 := suffix_one_iff input
  have s2 := suffix_two_iff input
  unfold isIncompleteInput
  rw [if_neg h1, if_neg (by simp [h2]), if_neg (by simp [h3]), if_neg h4]
  split
  · rename_i hcond
    have hge1 := s1.mp hcond.1
    have hlt2 : ¬ (2 ≤ trailingBackslashCount input) := fun h => hcond.2 (s2.mpr h)
    constructor
    · intro _
      omega
    · intro _
      rfl
  · rename_i hcond
    constructor
    · intro hfalse
      cases hfalse
    · intro htbc
      exact (hcond ⟨s1.mpr (by omega), fun h => absurd (s2.mp h) (by omega)⟩).elim

/-- Claim C7 counterexample: `"a\\\\\\"` (three trailing backslashes, an odd
count) satisfies all side conditions of the claim, yet `isIncompleteInput`
returns false — the code tests for exactly one trailing backslash. -/
theorem claim_C7_counterexample :
    trimList ['a', '\\', '\\', '\\'] ≠ [] ∧
      (['a', '\\', '\\', '\\'].count '\'') % 2 = 0 ∧
      (['a', '\\', '\\', '\\'].count '"') % 2 = 0 ∧
      trimList (splitLastSeg ['a', '\\', '\\', '\\']) ≠ [] ∧
      trailingBackslashCount ['a', '\\', '\\', '\\'] = 3 ∧
      isIncompleteInput ['a', '\\', '\\', '\\'] = false := by
  decide

/-- Claim C7 witness: the amended equivalence applied at `"a\\"` (exactly one
trailing backslash, detected as incomplete). -/
theorem claim_C7_witness :
    isIncompleteInput ['a', '\\'] = true ∧
      trailingBackslashCount ['a', '\\'] = 1 := by
  have h := claim_C7 ['a', '\\'] (by decide) (by decide) (by decide) (by decide)
  exact ⟨h.mpr (by decide), by decide⟩

theorem mem_headD {α : Type} (l : List (List α)) (h : l ≠ []) : l.headD [] ∈ l := by
  cases l with
  | nil => exact absurd rfl h
  | cons a as => exact List.mem_cons_self a as

theorem prefix_ext_step (seed p c0 : List Char) (d : Char)
    (hsp : seed <+: p) (hpc : p <+: c0) (hlen : seed.length < p.length) :
    (seed ++ [c0.getD seed.length d]) <+: p := by
  obtain ⟨t, ht⟩ := hsp
  obtain ⟨u, hu⟩ := hpc
  cases t with
  | nil =>
    exfalso
    rw [← ht] at hlen
    simp at hlen
  | cons thd ttl =>
    have hgd : c0.getD seed.length d = thd := by
      rw [← hu, ← ht, List.append_assoc,
        List.getD_append_right _ _ _ _ (Nat.le_refl seed.length)]
      simp
    rw [hgd]
    refine ⟨ttl, ?_⟩
    rw [← ht]
    simp

theorem scanCands_retNull {old frag : List Char} {l : List (List Char)}
    (h : scanCands old frag l = ScanOut.retNull) : ∃ c ∈ l, ¬ (old <+: c) := by
  induction l with
  | nil => cases h
  | cons c rest ih =>
    rw [scanCands] at h
    split at h
    · rename_i hp
      refine ⟨c, List.mem_cons_self c rest, fun hpref => ?_⟩
      rw [← List.isPrefixOf_iff_prefix, hp] at hpref
      cases hpref
    · split at h
      · cases h
      · obtain ⟨c2, hc2, hc2p⟩ := ih h
        exact ⟨c2, List.mem_cons_of_mem c hc2, hc2p⟩

theorem scanCands_retOld {old frag : List Char} {l : List (List Char)}
    (h : scanCands old frag l = ScanOut.retOld) : ∃ c ∈ l, ¬ (frag <+: c) := by
  induction l with
  | nil => cases h
  | cons c rest ih =>
    rw [scanCands] at h
    split at h
    · cases h
    · split at h
      · rename_i hp
        refine ⟨c, List.mem_cons_self c rest, fun hpref => ?_⟩
        rw [← List.isPrefixOf_iff_prefix, hp] at hpref
        cases hpref
      · obtain ⟨c2, hc2, hc2p⟩ := ih h
        exact ⟨c2, List.mem_cons_of_mem c hc2, hc2p⟩

theorem scanCands_next {old frag : List Char} {l : List (List Char)}
    (h : scanCands old frag l = ScanOut.next) : ∀ c ∈ l, frag <+: c := by
  induction l with
  | nil => intro c hc; cases hc
  | cons c rest ih =>
    rw [scanCands] at h
    split at h
    · cases h
    · split at h
      · cases h
      · rename_i hp
        intro c2 hc2
        rcases List.mem_cons.mp hc2 with hc2 | hc2
        · subst hc2
          rw [← List.isPrefixOf_iff_prefix]
          cases hpe : frag.isPrefixOf c2
          · exact absurd hpe hp
          · rfl
        · exact ih h c2 hc2

theorem getSharedFragment_spec :
    ∀ (m : Nat) (seed : List Char) (cands : List (List Char)),
    cands ≠ [] → (cands.headD []).length - seed.length = m →
    (∀ c ∈ cands, seed <+: c) →
    ∃ r, getSharedFragment seed cands = some r ∧ seed <+: r ∧
      r <+: cands.headD [] ∧ (∀ c ∈ cands, r <+: c) ∧
      (∀ p, seed <+: p → p <+: cands.headD [] → (∀ c ∈ cands, p <+: c) →
        p.length ≤ r.length) := by
  intro m
  induction m with
  | zero =>
    intro seed cands hne hm hall
    have hc0mem : cands.headD [] ∈ cands := mem_headD cands hne
    have hseedc0 : seed <+: cands.headD [] := hall _ hc0mem
    have hlen : (cands.headD []).length ≤ seed.length := by omega
    have heq : seed = cands.headD [] :=
      hseedc0.sublist.eq_of_length_le hlen
    refine ⟨seed, ?_, List.prefix_refl seed, heq ▸ List.prefix_refl seed, hall, ?_⟩
    · rw [getSharedFragment.eq_def, if_pos hlen]
    · intro p _ hpc0 _
      have := hpc0.length_le
      omega
  | succ k ih =>
    intro seed cands hne hm hall
    have hc0mem : cands.headD [] ∈ cands := mem_headD cands hne
    have hseedc0 : seed <+: cands.headD [] := hall _ hc0mem
    have hlt : seed.length < (cands.headD []).length := by omega
    have hfrag2c0 : (seed ++ [(cands.headD []).getD seed.length ' ']) <+: cands.headD [] :=
      prefix_ext_step seed (cands.headD []) (cands.headD []) ' ' hseedc0
        (List.prefix_refl _) hlt
    have hfrag2len : (seed ++ [(cands.headD []).getD seed.length ' ']).length =
        seed.length + 1 := by simp
    have hunfold : getSharedFragment seed cands =
        match scanCands seed (seed ++ [(cands.headD []).getD seed.length ' ']) cands with
        | ScanOut.retNull => none
        | ScanOut.retOld => some seed
        | ScanOut.next =>
          getSharedFragment (seed ++ [(cands.headD []).getD seed.length ' ']) cands := by
      rw [getSharedFragment.eq_def, if_neg (by omega)]
    cases hscan : scanCands seed (seed ++ [(cands.headD []).getD seed.length ' ']) cands with
    | retNull =>
      obtain ⟨c, hcmem, hcnp⟩ := scanCands_retNull hscan
      exact absurd (hall c hcmem) hcnp
    | retOld =>
      obtain ⟨c, hcmem, hcnf⟩ := scanCands_retOld hscan
      refine ⟨seed, by rw [hunfold, hscan], List.prefix_refl seed, hseedc0, hall, ?_⟩
      intro p hsp hpc0 hallp
      by_contra hplen
      push_neg at hplen
      have hfp := prefix_ext_step seed p (cands.headD []) ' ' hsp hpc0 (by omega)
      exact hcnf (hfp.trans (hallp c hcmem))
    | next =>
      have hallf := scanCands_next hscan
      have hm2 : (cands.headD []).length -
          (seed ++ [(cands.headD []).getD seed.length ' ']).length = k := by
        rw [hfrag2len]
        omega
      obtain ⟨r, hr_eq, hr_f2, hr_c0, hr_all, hr_max⟩ :=
        ih (seed ++ [(cands.headD []).getD seed.length ' ']) cands hne hm2 hallf
      refine ⟨r, by rw [hunfold, hscan]; exact hr_eq,
        (List.prefix_append seed _).trans hr_f2, hr_c0, hr_all, ?_⟩
      intro p hsp hpc0 hallp
      by_cases hpl : p.length ≤ seed.length
      · have h1 := hr_f2.length_le
        omega
      · push_neg at hpl
        have hfp := prefix_ext_step seed p (cands.headD []) ' ' hsp hpc0 hpl
        exact hr_max p hfp hpc0 hallp

/-- Claim C8 (amended): `getSharedFragment(seed, candidates)` returns `none`
ONLY IF some candidate does not start with the seed (the converse of the
claim fails: the base case returns the seed unchecked); and when every
candidate starts with the seed it returns the longest extension of the seed
along the first candidate that is a prefix of every candidate. -/
theorem claim_C8 :
    (∀ (seed : List Char) (cands : List (List Char)), cands ≠ [] →
      getSharedFragment seed cands = none → ∃ c ∈ cands, ¬ (seed <+: c)) ∧
    (∀ (seed : List Char) (cands : List (List Char)), cands ≠ [] →
      (∀ c ∈ cands, seed <+: c) →
      ∃ r, getSharedFragment seed cands = some r ∧ seed <+: r ∧
        r <+: cands.headD [] ∧ (∀ c ∈ cands, r <+: c) ∧
        (∀ p, seed <+: p → p <+: cands.headD [] → (∀ c ∈ cands, p <+: c) →
          p.length ≤ r.length)) := by
  have main : ∀ (seed : List Char) (cands : List (List Char)), cands ≠ [] →
      (∀ c ∈ cands, seed <+: c) →
      ∃ r, getSharedFragment seed cands = some r ∧ seed <+: r ∧
        r <+: cands.headD [] ∧ (∀ c ∈ cands, r <+: c) ∧
        (∀ p, seed <+: p → p <+: cands.headD [] → (∀ c ∈ cands, p <+: c) →
          p.length ≤ r.length) :=
    fun seed cands hne hall =>
      getSharedFragment_spec ((cands.headD []).length - seed.length) seed cands hne
        rfl hall
  constructor
  · intro seed cands hne hnone
    by_contra hex
    push_neg at hex
    obtain ⟨r, hr, _⟩ := main seed cands hne hex
    rw [hnone] at hr
    cases hr
  · exact main

/-- Claim C8 counterexample: `getSharedFragment("a", ["b"])` returns `"a"`
(the base case fires because the seed is as long as the first candidate,
skipping all validation), although `"b"` does not start with the seed `"a"` —
refuting "returns none whenever some candidate does not start with the seed". -/
theorem claim_C8_counterexample :
    getSharedFragment ['a'] [['b']] = some ['a'] ∧ ¬ (['a'] <+: ['b']) := by
  constructor
  · rw [getSharedFragment.eq_def, if_pos (by decide)]
  · decide

/-- Claim C8 witness: the positive clause applied at the spec example
`sharedPrefix("f", ["foo-1","foo-2"])`. -/
theorem claim_C8_witness :
    ∃ r, getSharedFragment ['f'] [String.toList "foo-1", String.toList "foo-2"] =
        some r ∧
      ['f'] <+: r ∧
      r <+: ([String.toList "foo-1", String.toList "foo-2"].headD []) ∧
      (∀ c ∈ [String.toList "foo-1", String.toList "foo-2"], r <+: c) ∧
      (∀ p, ['f'] <+: p →
        p <+: ([String.toList "foo-1", String.toList "foo-2"].headD []) →
        (∀ c ∈ [String.toList "foo-1", String.toList "foo-2"], p <+: c) →
        p.length ≤ r.length) :=
  claim_C8.2 ['f'] [String.toList "foo-1", String.toList "foo-2"] (by decide)
    (by decide)

end LocalEcho
